import Mathlib

/-!
Shallow embedding of the `lidex-mongo` workflow persistence layer.

The repository stores one document per workflow instance in a MongoDB
collection `workflows` and exposes the operations `insert`, `claim`,
`findOutput`, `updateOutput`, `findWakeUpAt`, `updateWakeUpAt`,
`findRunData`, `findStatus`, `setAsFinished` and `updateStatus`.

The store is modelled as a list of documents; MongoDB's
`findOneAndUpdate` / `updateOne` select the first matching document and
update it atomically, `findOne` reads the first matching document, and
the unique index on `id` turns a duplicate `insertOne` into a
`MongoServerError` with code 11000.  Dates are modelled as integers
(BSON dates compare by their millisecond value); the dynamic dotted
paths `steps.<stepId>` / `naps.<napId>` are modelled as association
lists, where an absent mapping and an empty mapping are observationally
equal for every operation of the layer.  Opaque payload values are a
type parameter `V`.

Two variants of `claim` exist in the repository and are both embedded:
`claim` is the two-argument version of `makeMongoPersistence`
(filter compares `timeoutAt < now`, writes `timeoutAt := leaseUntil`),
and `MongoPersistenceClass.claim` is the one-argument version of the
`MongoPersistence` class (filter compares `timeoutAt < timeoutAt_arg`
and writes that same argument).
-/

/-- The five lifecycle states of a workflow instance. -/
inductive Status where
  | idle
  | running
  | failed
  | finished
  | aborted
deriving DecidableEq, Repr

/-- One workflow document, following the `Workflow` interface of the source:
`id`, `handler`, `input`, `status` are always present; `timeoutAt`,
`failures`, `lastError` are optional; `steps` and `naps` are mappings
(absent mapping modelled as the empty list). -/
structure Workflow (V : Type) where
  id : String
  handler : String
  input : V
  status : Status
  timeoutAt : Option Int := none
  failures : Option Int := none
  lastError : Option String := none
  steps : List (String × V) := []
  naps : List (String × Int) := []
deriving DecidableEq, Repr

/-- The `workflows` collection. -/
abbrev Store (V : Type) : Type := List (Workflow V)

/-- Lookup in a `steps` / `naps` mapping (reading `workflow.steps[stepId]`). -/
def getEntry {α : Type} : List (String × α) → String → Option α
  | [], _ => none
  | (k, v) :: rest, key => if k = key then some v else getEntry rest key

/-- MongoDB `$set` on a dotted path `steps.<key>`: overwrite the entry if the
key is present, append it otherwise. -/
def setEntry {α : Type} : List (String × α) → String → α → List (String × α)
  | [], key, v => [(key, v)]
  | (k, w) :: rest, key, v =>
    if k = key then (key, v) :: rest else (k, w) :: setEntry rest key v

/-- `findOne {id: workflowId}`: the first document with the given id. -/
def findDoc {V : Type} : Store V → String → Option (Workflow V)
  | [], _ => none
  | w :: rest, i => if w.id = i then some w else findDoc rest i

/-- `updateOne {id: workflowId} {$set ...}`: update the first document with
the given id; no match is a silent no-op. -/
def updateFirst {V : Type} : Store V → String → (Workflow V → Workflow V) → Store V
  | [], _, _ => []
  | w :: rest, i, f => if w.id = i then f w :: rest else w :: updateFirst rest i f

/-- A MongoDB server error, carrying `name` and `code` as inspected by the
`catch` block of `insert`. -/
structure MongoErr where
  name : String
  code : Int
deriving DecidableEq, Repr

/-- A fresh document as written by `insertOne` inside `insert`: only `id`,
`handler`, `input` and `status: "idle"` are set. -/
def newWorkflow {V : Type} (i h : String) (v : V) : Workflow V :=
  { id := i, handler := h, input := v, status := .idle }

/-- `insertOne` under the unique index on `id`: a duplicate id raises
`MongoServerError` code 11000, otherwise the document is appended. -/
def insertOneRes {V : Type} (st : Store V) (i h : String) (v : V) :
    Except MongoErr (Store V) :=
  match findDoc st i with
  | some _ => .error { name := "MongoServerError", code := 11000 }
  | none => .ok (st ++ [newWorkflow i h v])

/-- The `try`/`catch` body of `insert`: success returns `true`; an error
with `name === "MongoServerError"` and `code === 11000` is absorbed into
`false`; any other error is re-thrown unchanged. -/
def insertCore {V : Type} (st : Store V) (r : Except MongoErr (Store V)) :
    Except MongoErr (Bool × Store V) :=
  match r with
  | .ok st' => .ok (true, st')
  | .error e =>
    if e.name = "MongoServerError" ∧ e.code = 11000 then .ok (false, st)
    else .error e

/-- `insert(workflowId, handler, input)`. -/
def insert {V : Type} (st : Store V) (i h : String) (v : V) :
    Except MongoErr (Bool × Store V) :=
  insertCore st (insertOneRes st i h v)

/-- The pure store effect of `insert` (a duplicate id leaves the store
unchanged). -/
def insertS {V : Type} (st : Store V) (i h : String) (v : V) : Store V :=
  match insertOneRes st i h v with
  | .ok st' => st'
  | .error _ => st

/-- The `$or` filter of `claim`'s `findOneAndUpdate`, with `bound` the value
compared by `$lt` against the stored `timeoutAt`:
`status == "idle"`, or `status ∈ {"running","failed"}` and
`timeoutAt < bound` (a document without `timeoutAt` does not match `$lt`). -/
def claimMatches {V : Type} (bound : Int) (w : Workflow V) : Bool :=
  match w.status, w.timeoutAt with
  | .idle, _ => true
  | .running, some t => decide (t < bound)
  | .failed, some t => decide (t < bound)
  | _, _ => false

/-- The `$set` of `claim`: `status := "running"`, `timeoutAt := leaseUntil`. -/
def claimUpdate {V : Type} (lease : Int) (w : Workflow V) : Workflow V :=
  { w with status := .running, timeoutAt := some lease }

/-- `claim(now, timeoutAt)` of `makeMongoPersistence`: one atomic
`findOneAndUpdate` returning the claimed document's id (projection `{id: 1}`
of the matched document), or none when no document matches. -/
def claim {V : Type} : Store V → Int → Int → Option String × Store V
  | [], _, _ => (none, [])
  | w :: rest, now, lease =>
    if claimMatches now w then (some w.id, claimUpdate lease w :: rest)
    else ((claim rest now lease).1, w :: (claim rest now lease).2)

namespace MongoPersistenceClass

/-- `claim(timeoutAt)` of the `MongoPersistence` class: the single argument
is used both as the `$lt` bound of the filter and as the new `timeoutAt`
written by `$set`. -/
def claim {V : Type} : Store V → Int → Option String × Store V
  | [], _ => (none, [])
  | w :: rest, timeoutAt =>
    if claimMatches timeoutAt w then (some w.id, claimUpdate timeoutAt w :: rest)
    else ((claim rest timeoutAt).1, w :: (claim rest timeoutAt).2)

end MongoPersistenceClass

/-- `findOutput(workflowId, stepId)`: projected read of `steps.<stepId>`. -/
def findOutput {V : Type} (st : Store V) (i s : String) : Option V :=
  match findDoc st i with
  | some w => getEntry w.steps s
  | none => none

/-- `findWakeUpAt(workflowId, napId)`: projected read of `naps.<napId>`. -/
def findWakeUpAt {V : Type} (st : Store V) (i n : String) : Option Int :=
  match findDoc st i with
  | some w => getEntry w.naps n
  | none => none

/-- `findRunData(workflowId)`: projected read of `handler`, `input`,
`failures`. -/
def findRunData {V : Type} (st : Store V) (i : String) :
    Option (String × V × Option Int) :=
  match findDoc st i with
  | some w => some (w.handler, w.input, w.failures)
  | none => none

/-- `findStatus(workflowId)`: projected read of `status`. -/
def findStatus {V : Type} (st : Store V) (i : String) : Option Status :=
  match findDoc st i with
  | some w => some w.status
  | none => none

/-- The `$set` document of `setAsFinished`: `{status: "finished"}`. -/
def setFinishedFn {V : Type} (w : Workflow V) : Workflow V :=
  { w with status := .finished }

/-- `setAsFinished(workflowId)`: `updateOne` with `$set {status: "finished"}`
(unconditional, writes no `timeoutAt`). -/
def setAsFinished {V : Type} (st : Store V) (i : String) : Store V :=
  updateFirst st i setFinishedFn

/-- The `$set` document of `updateStatus`. -/
def updateStatusFn {V : Type} (s : Status) (t : Int) (f : Int) (e : String)
    (w : Workflow V) : Workflow V :=
  { w with status := s, timeoutAt := some t,
           failures := some f, lastError := some e }

/-- `updateStatus(workflowId, status, timeoutAt, failures, lastError)`:
unconditional `$set` of the four fields. -/
def updateStatus {V : Type} (st : Store V) (i : String) (s : Status)
    (t : Int) (f : Int) (e : String) : Store V :=
  updateFirst st i (updateStatusFn s t f e)

/-- The `$set` document of `updateOutput`:
`{steps.<stepId>: output, timeoutAt}`. -/
def updateOutputFn {V : Type} (s : String) (v : V) (t : Int)
    (w : Workflow V) : Workflow V :=
  { w with steps := setEntry w.steps s v, timeoutAt := some t }

/-- `updateOutput(workflowId, stepId, output, timeoutAt)`:
`$set {steps.<stepId>: output, timeoutAt}`. -/
def updateOutput {V : Type} (st : Store V) (i s : String) (v : V) (t : Int) :
    Store V :=
  updateFirst st i (updateOutputFn s v t)

/-- The `$set` document of `updateWakeUpAt`:
`{naps.<napId>: wakeUpAt, timeoutAt}`. -/
def updateWakeUpAtFn {V : Type} (n : String) (wake t : Int)
    (w : Workflow V) : Workflow V :=
  { w with naps := setEntry w.naps n wake, timeoutAt := some t }

/-- `updateWakeUpAt(workflowId, napId, wakeUpAt, timeoutAt)`:
`$set {naps.<napId>: wakeUpAt, timeoutAt}`. -/
def updateWakeUpAt {V : Type} (st : Store V) (i n : String) (wake t : Int) :
    Store V :=
  updateFirst st i (updateWakeUpAtFn n wake t)

/-- One invocation of a write operation of the layer, with its arguments. -/
inductive Op (V : Type) where
  | insert (i h : String) (v : V)
  | claim (now lease : Int)
  | updateOutput (i s : String) (v : V) (t : Int)
  | updateWakeUpAt (i n : String) (wake t : Int)
  | updateStatus (i : String) (s : Status) (t : Int) (f : Int) (e : String)
  | setAsFinished (i : String)
deriving DecidableEq, Repr

/-- The store effect of one write operation. -/
def applyOp {V : Type} (st : Store V) : Op V → Store V
  | .insert i h v => insertS st i h v
  | .claim now lease => (claim st now lease).2
  | .updateOutput i s v t => updateOutput st i s v t
  | .updateWakeUpAt i n wake t => updateWakeUpAt st i n wake t
  | .updateStatus i s t f e => updateStatus st i s t f e
  | .setAsFinished i => setAsFinished st i

/-- The store after a sequence of write operations. -/
def runOps {V : Type} (st : Store V) (ops : List (Op V)) : Store V :=
  ops.foldl applyOp st

/-- A sequence of `claim` calls (each one atomic), collecting the returned
ids and threading the store. -/
def runClaims {V : Type} : Store V → List (Int × Int) → List (Option String) × Store V
  | st, [] => ([], st)
  | st, (now, lease) :: cs =>
    ((claim st now lease).1 :: (runClaims (claim st now lease).2 cs).1,
     (runClaims (claim st now lease).2 cs).2)

/-- The status edges of the specification's state machine (§4.2):
idle→running, running→running/failed/finished, failed→running,
any→aborted; `finished` and `aborted` are terminal. -/
def specEdge : Status → Status → Bool
  | .idle, .running => true
  | .running, .running => true
  | .running, .failed => true
  | .running, .finished => true
  | .failed, .running => true
  | _, .aborted => true
  | _, _ => false

/-- Whether an operation writes the `steps.<s>` entry of instance `i`. -/
def touchesStep {V : Type} (i s : String) : Op V → Bool
  | .updateOutput i' s' _ _ => i' = i && s' = s
  | _ => false

/-- Whether an operation writes the `naps.<n>` entry of instance `i`. -/
def touchesNap {V : Type} (i n : String) : Op V → Bool
  | .updateWakeUpAt i' n' _ _ => i' = i && n' = n
  | _ => false

/-! ### Helper lemmas about the embedded operations -/

theorem getEntry_setEntry_self {α : Type} (l : List (String × α)) (k : String) (v : α) :
    getEntry (setEntry l k v) k = some v := by
  induction l with
  | nil => simp [getEntry, setEntry]
  | cons p rest ih =>
    obtain ⟨k', v'⟩ := p
    by_cases h : k' = k
    · simp [getEntry, setEntry, h]
    · simp [getEntry, setEntry, h, ih]

theorem getEntry_setEntry_ne {α : Type} (l : List (String × α)) (k k' : String) (v : α)
    (h : k' ≠ k) : getEntry (setEntry l k v) k' = getEntry l k' := by
  induction l with
  | nil => simp [getEntry, setEntry, h, Ne.symm h]
  | cons p rest ih =>
    obtain ⟨k0, v0⟩ := p
    by_cases h0 : k0 = k
    · subst h0
      simp [getEntry, setEntry, h, Ne.symm h]
    · by_cases h1 : k0 = k'
      · simp [getEntry, setEntry, h0, h1, h]
      · simp [getEntry, setEntry, h0, h1, ih]

theorem findDoc_eq_none_iff {V : Type} (st : Store V) (i : String) :
    findDoc st i = none ↔ ∀ w ∈ st, w.id ≠ i := by
  induction st with
  | nil => simp [findDoc]
  | cons w rest ih =>
    by_cases h : w.id = i
    · simp [findDoc, h]
    · simp [findDoc, h, ih]

theorem updateFirst_eq_of_findDoc_none {V : Type} (st : Store V) (i : String)
    (f : Workflow V → Workflow V) (h : findDoc st i = none) :
    updateFirst st i f = st := by
  induction st with
  | nil => simp [updateFirst]
  | cons w rest ih =>
    by_cases h0 : w.id = i
    · simp [findDoc, h0] at h
    · simp [findDoc, h0] at h
      simp [updateFirst, h0, ih h]

theorem mem_updateFirst {V : Type} (st : Store V) (i : String)
    (f : Workflow V → Workflow V) (w' : Workflow V)
    (h : w' ∈ updateFirst st i f) : w' ∈ st ∨ ∃ w, w ∈ st ∧ w' = f w := by
  induction st with
  | nil => simp [updateFirst] at h
  | cons w rest ih =>
    by_cases h0 : w.id = i
    · simp [updateFirst, h0] at h
      rcases h with h | h
      · exact Or.inr ⟨w, by simp, h⟩
      · exact Or.inl (by simp [h])
    · simp [updateFirst, h0] at h
      rcases h with h | h
      · exact Or.inl (by simp [h])
      · rcases ih h with h1 | ⟨w0, hw0, he⟩
        · exact Or.inl (by simp [h1])
        · exact Or.inr ⟨w0, by simp [hw0], he⟩

theorem findDoc_updateFirst_self {V : Type} (st : Store V) (i : String)
    (f : Workflow V → Workflow V) (hf : ∀ w, (f w).id = w.id) :
    findDoc (updateFirst st i f) i = (findDoc st i).map f := by
  induction st with
  | nil => simp [findDoc, updateFirst]
  | cons w rest ih =>
    by_cases h0 : w.id = i
    · simp [findDoc, updateFirst, h0, hf]
    · simp [findDoc, updateFirst, h0, ih]

theorem findDoc_updateFirst_ne {V : Type} (st : Store V) (i j : String)
    (f : Workflow V → Workflow V) (hf : ∀ w, (f w).id = w.id) (hne : j ≠ i) :
    findDoc (updateFirst st i f) j = findDoc st j := by
  induction st with
  | nil => simp [findDoc, updateFirst]
  | cons w rest ih =>
    by_cases h0 : w.id = i
    · have : (f w).id = w.id := hf w
      simp [findDoc, updateFirst, h0, this, Ne.symm hne]
    · by_cases h1 : w.id = j
      · simp [findDoc, updateFirst, h0, h1, hne]
      · simp [findDoc, updateFirst, h0, h1, ih]

theorem claimMatches_status {V : Type} (b : Int) (w : Workflow V)
    (h : claimMatches b w = true) :
    w.status = .idle ∨ w.status = .running ∨ w.status = .failed := by
  unfold claimMatches at h
  rcases hs : w.status with _ | _ | _ | _ | _ <;> simp [hs] at h ⊢

theorem claimUpdate_id {V : Type} (lease : Int) (w : Workflow V) :
    (claimUpdate lease w).id = w.id := rfl

theorem claim_fst_some {V : Type} (st : Store V) (now lease : Int) (i : String)
    (h : (claim st now lease).1 = some i) :
    ∃ w, w ∈ st ∧ w.id = i ∧ claimMatches now w = true := by
  induction st with
  | nil => simp [claim] at h
  | cons w rest ih =>
    by_cases h0 : claimMatches now w
    · simp [claim, h0] at h
      exact ⟨w, by simp, h, h0⟩
    · simp [claim, h0] at h
      obtain ⟨w0, hw0, hid, hm⟩ := ih h
      exact ⟨w0, by simp [hw0], hid, hm⟩

theorem mem_claim_snd {V : Type} (st : Store V) (now lease : Int) (w' : Workflow V)
    (h : w' ∈ (claim st now lease).2) :
    w' ∈ st ∨ ∃ w, w ∈ st ∧ claimMatches now w = true ∧ w' = claimUpdate lease w := by
  induction st with
  | nil => simp [claim] at h
  | cons w rest ih =>
    by_cases h0 : claimMatches now w
    · simp [claim, h0] at h
      rcases h with h | h
      · exact Or.inr ⟨w, by simp, h0, h⟩
      · exact Or.inl (by simp [h])
    · simp [claim, h0] at h
      rcases h with h | h
      · exact Or.inl (by simp [h])
      · rcases ih h with h1 | ⟨w0, hw0, hm, he⟩
        · exact Or.inl (by simp [h1])
        · exact Or.inr ⟨w0, by simp [hw0], hm, he⟩

theorem claim_of_no_match {V : Type} (st : Store V) (now lease : Int)
    (h : ∀ w ∈ st, claimMatches now w = false) :
    claim st now lease = (none, st) := by
  induction st with
  | nil => simp [claim]
  | cons w rest ih =>
    have hw : claimMatches now w = false := h w (by simp)
    have hrest : ∀ w0 ∈ rest, claimMatches now w0 = false := by
      intro w0 hw0
      exact h w0 (by simp [hw0])
    simp [claim, hw, ih hrest]

theorem claim_findOutput {V : Type} (st : Store V) (now lease : Int) (i s : String) :
    findOutput (claim st now lease).2 i s = findOutput st i s := by
  induction st with
  | nil => simp [claim]
  | cons w rest ih =>
    by_cases h0 : claimMatches now w
    · by_cases h1 : w.id = i
      · simp [claim, h0, findOutput, findDoc, h1, claimUpdate]
      · simp [claim, h0, findOutput, findDoc, h1, claimUpdate]
    · by_cases h1 : w.id = i
      · simp [claim, h0, findOutput, findDoc, h1]
      · simp only [claim, h0] at *
        simp only [findOutput, findDoc, h1, if_neg] at ih ⊢
        simpa [findOutput] using ih

theorem claim_findWakeUpAt {V : Type} (st : Store V) (now lease : Int) (i n : String) :
    findWakeUpAt (claim st now lease).2 i n = findWakeUpAt st i n := by
  induction st with
  | nil => simp [claim]
  | cons w rest ih =>
    by_cases h0 : claimMatches now w
    · by_cases h1 : w.id = i
      · simp [claim, h0, findWakeUpAt, findDoc, h1, claimUpdate]
      · simp [claim, h0, findWakeUpAt, findDoc, h1, claimUpdate]
    · by_cases h1 : w.id = i
      · simp [claim, h0, findWakeUpAt, findDoc, h1]
      · simp only [claim, h0] at *
        simp only [findWakeUpAt, findDoc, h1, if_neg] at ih ⊢
        simpa [findWakeUpAt] using ih

theorem findDoc_append_some {V : Type} (st l : Store V) (i : String) (w : Workflow V)
    (h : findDoc st i = some w) : findDoc (st ++ l) i = some w := by
  induction st with
  | nil => simp [findDoc] at h
  | cons w0 rest ih =>
    by_cases h0 : w0.id = i
    · simp [findDoc, h0] at h ⊢
      exact h
    · simp [findDoc, h0] at h ⊢
      exact ih h

theorem findDoc_append_none {V : Type} (st l : Store V) (i : String)
    (h : findDoc st i = none) : findDoc (st ++ l) i = findDoc l i := by
  induction st with
  | nil => simp
  | cons w0 rest ih =>
    by_cases h0 : w0.id = i
    · simp [findDoc, h0] at h
    · simp [findDoc, h0] at h ⊢
      exact ih h

theorem findOutput_updateFirst_of_steps_eq {V : Type} (st : Store V) (j : String)
    (f : Workflow V → Workflow V) (hid : ∀ w, (f w).id = w.id)
    (hsteps : ∀ w, (f w).steps = w.steps) (i s : String) :
    findOutput (updateFirst st j f) i s = findOutput st i s := by
  by_cases h : i = j
  · subst h
    rw [findOutput, findOutput, findDoc_updateFirst_self st i f hid]
    cases findDoc st i with
    | none => simp
    | some w => simp [hsteps]
  · rw [findOutput, findOutput, findDoc_updateFirst_ne st j i f hid h]

theorem findWakeUpAt_updateFirst_of_naps_eq {V : Type} (st : Store V) (j : String)
    (f : Workflow V → Workflow V) (hid : ∀ w, (f w).id = w.id)
    (hnaps : ∀ w, (f w).naps = w.naps) (i n : String) :
    findWakeUpAt (updateFirst st j f) i n = findWakeUpAt st i n := by
  by_cases h : i = j
  · subst h
    rw [findWakeUpAt, findWakeUpAt, findDoc_updateFirst_self st i f hid]
    cases findDoc st i with
    | none => simp
    | some w => simp [hnaps]
  · rw [findWakeUpAt, findWakeUpAt, findDoc_updateFirst_ne st j i f hid h]

/-- The lease invariant behind C9: every running or failed document carries
a `timeoutAt`. -/
def StoreInv {V : Type} (st : Store V) : Prop :=
  ∀ w ∈ st, (w.status = .running ∨ w.status = .failed) → w.timeoutAt ≠ none

theorem storeInv_applyOp {V : Type} (st : Store V) (op : Op V)
    (h : StoreInv st) : StoreInv (applyOp st op) := by
  cases op with
  | insert i hd v =>
    intro w' hw' hst
    simp only [applyOp, insertS, insertOneRes] at hw'
    cases hfd : findDoc st i with
    | some w0 =>
      rw [hfd] at hw'
      exact h w' hw' hst
    | none =>
      rw [hfd] at hw'
      simp only [List.mem_append, List.mem_singleton] at hw'
      rcases hw' with hw' | hw'
      · exact h w' hw' hst
      · subst hw'
        simp [newWorkflow] at hst
  | claim now lease =>
    intro w' hw' hst
    rcases mem_claim_snd st now lease w' hw' with hmem | ⟨w0, _, _, he⟩
    · exact h w' hmem hst
    · subst he
      simp [claimUpdate]
  | updateOutput i s v t =>
    intro w' hw' hst
    rcases mem_updateFirst st i _ w' hw' with hmem | ⟨w0, _, he⟩
    · exact h w' hmem hst
    · subst he
      simp [updateOutputFn]
  | updateWakeUpAt i n wake t =>
    intro w' hw' hst
    rcases mem_updateFirst st i _ w' hw' with hmem | ⟨w0, _, he⟩
    · exact h w' hmem hst
    · subst he
      simp [updateWakeUpAtFn]
  | updateStatus i s t f e =>
    intro w' hw' hst
    rcases mem_updateFirst st i _ w' hw' with hmem | ⟨w0, _, he⟩
    · exact h w' hmem hst
    · subst he
      simp [updateStatusFn]
  | setAsFinished i =>
    intro w' hw' hst
    rcases mem_updateFirst st i _ w' hw' with hmem | ⟨w0, _, he⟩
    · exact h w' hmem hst
    · subst he
      simp [setFinishedFn] at hst

theorem storeInv_runOps {V : Type} (st : Store V) (ops : List (Op V))
    (h : StoreInv st) : StoreInv (runOps st ops) := by
  induction ops generalizing st with
  | nil => exact h
  | cons op rest ih => exact ih (applyOp st op) (storeInv_applyOp st op h)

theorem findOutput_applyOp_none {V : Type} (st : Store V) (op : Op V) (i s : String)
    (hop : touchesStep i s op = false) (h : findOutput st i s = none) :
    findOutput (applyOp st op) i s = none := by
  cases op with
  | insert i' hd v =>
    simp only [applyOp, insertS, insertOneRes]
    cases hfd : findDoc st i' with
    | some w0 => exact h
    | none =>
      rw [findOutput]
      cases hfi : findDoc st i with
      | some w =>
        rw [findDoc_append_some st _ i w hfi]
        rw [findOutput, hfi] at h
        exact h
      | none =>
        rw [findDoc_append_none st _ i hfi]
        by_cases hii : i' = i
        · simp [findDoc, newWorkflow, hii, getEntry]
        · simp [findDoc, newWorkflow, hii]
  | claim now lease => rw [applyOp, claim_findOutput st now lease i s]; exact h
  | updateOutput i' s' v t =>
    by_cases hii : i' = i
    · subst hii
      have hss : ¬ s' = s := by simpa [touchesStep] using hop
      rw [applyOp, findOutput, updateOutput,
        findDoc_updateFirst_self st i' (updateOutputFn s' v t) (fun w => rfl)]
      cases hfi : findDoc st i' with
      | none => simp
      | some w =>
        rw [findOutput, hfi] at h
        simpa [updateOutputFn, getEntry_setEntry_ne w.steps s' s v (Ne.symm hss)]
          using h
    · rw [applyOp, findOutput, updateOutput,
        findDoc_updateFirst_ne st i' i (updateOutputFn s' v t) (fun w => rfl)
          (fun hc => hii hc.symm)]
      rw [findOutput] at h
      exact h
  | updateWakeUpAt i' n wake t =>
    rw [applyOp, updateWakeUpAt,
      findOutput_updateFirst_of_steps_eq st i' (updateWakeUpAtFn n wake t)
        (fun w => rfl) (fun w => rfl) i s]
    exact h
  | updateStatus i' s0 t f e =>
    rw [applyOp, updateStatus,
      findOutput_updateFirst_of_steps_eq st i' (updateStatusFn s0 t f e)
        (fun w => rfl) (fun w => rfl) i s]
    exact h
  | setAsFinished i' =>
    rw [applyOp, setAsFinished,
      findOutput_updateFirst_of_steps_eq st i' setFinishedFn
        (fun w => rfl) (fun w => rfl) i s]
    exact h

theorem findWakeUpAt_applyOp_none {V : Type} (st : Store V) (op : Op V) (i n : String)
    (hop : touchesNap i n op = false) (h : findWakeUpAt st i n = none) :
    findWakeUpAt (applyOp st op) i n = none := by
  cases op with
  | insert i' hd v =>
    simp only [applyOp, insertS, insertOneRes]
    cases hfd : findDoc st i' with
    | some w0 => exact h
    | none =>
      rw [findWakeUpAt]
      cases hfi : findDoc st i with
      | some w =>
        rw [findDoc_append_some st _ i w hfi]
        rw [findWakeUpAt, hfi] at h
        exact h
      | none =>
        rw [findDoc_append_none st _ i hfi]
        by_cases hii : i' = i
        · simp [findDoc, newWorkflow, hii, getEntry]
        · simp [findDoc, newWorkflow, hii]
  | claim now lease => rw [applyOp, claim_findWakeUpAt st now lease i n]; exact h
  | updateWakeUpAt i' n' wake t =>
    by_cases hii : i' = i
    · subst hii
      have hnn : ¬ n' = n := by simpa [touchesNap] using hop
      rw [applyOp, findWakeUpAt, updateWakeUpAt,
        findDoc_updateFirst_self st i' (updateWakeUpAtFn n' wake t) (fun w => rfl)]
      cases hfi : findDoc st i' with
      | none => simp
      | some w =>
        rw [findWakeUpAt, hfi] at h
        simpa [updateWakeUpAtFn, getEntry_setEntry_ne w.naps n' n wake (Ne.symm hnn)]
          using h
    · rw [applyOp, findWakeUpAt, updateWakeUpAt,
        findDoc_updateFirst_ne st i' i (updateWakeUpAtFn n' wake t) (fun w => rfl)
          (fun hc => hii hc.symm)]
      rw [findWakeUpAt] at h
      exact h
  | updateOutput i' s v t =>
    rw [applyOp, updateOutput,
      findWakeUpAt_updateFirst_of_naps_eq st i' (updateOutputFn s v t)
        (fun w => rfl) (fun w => rfl) i n]
    exact h
  | updateStatus i' s0 t f e =>
    rw [applyOp, updateStatus,
      findWakeUpAt_updateFirst_of_naps_eq st i' (updateStatusFn s0 t f e)
        (fun w => rfl) (fun w => rfl) i n]
    exact h
  | setAsFinished i' =>
    rw [applyOp, setAsFinished,
      findWakeUpAt_updateFirst_of_naps_eq st i' setFinishedFn
        (fun w => rfl) (fun w => rfl) i n]
    exact h

theorem findOutput_runOps_none {V : Type} (st : Store V) (ops : List (Op V))
    (i s : String) (h : findOutput st i s = none)
    (hops : ∀ op ∈ ops, touchesStep i s op = false) :
    findOutput (runOps st ops) i s = none := by
  induction ops generalizing st with
  | nil => exact h
  | cons op rest ih =>
    exact ih (applyOp st op)
      (findOutput_applyOp_none st op i s (hops op (by simp)) h)
      (fun op0 hop0 => hops op0 (by simp [hop0]))

theorem findWakeUpAt_runOps_none {V : Type} (st : Store V) (ops : List (Op V))
    (i n : String) (h : findWakeUpAt st i n = none)
    (hops : ∀ op ∈ ops, touchesNap i n op = false) :
    findWakeUpAt (runOps st ops) i n = none := by
  induction ops generalizing st with
  | nil => exact h
  | cons op rest ih =>
    exact ih (applyOp st op)
      (findWakeUpAt_applyOp_none st op i n (hops op (by simp)) h)
      (fun op0 hop0 => hops op0 (by simp [hop0]))

/-- Every document carrying the given id is in a terminal status
(`finished` or `aborted`). -/
def TerminalAt {V : Type} (st : Store V) (i : String) : Prop :=
  ∀ w ∈ st, w.id = i → w.status = .finished ∨ w.status = .aborted

theorem claimMatches_of_terminal {V : Type} (b : Int) (w : Workflow V)
    (h : w.status = .finished ∨ w.status = .aborted) :
    claimMatches b w = false := by
  rcases h with h | h <;> simp [claimMatches, h]

theorem claim_terminalAt {V : Type} (st : Store V) (now lease : Int) (i : String)
    (h : TerminalAt st i) :
    (claim st now lease).1 ≠ some i ∧ TerminalAt (claim st now lease).2 i := by
  constructor
  · intro hc
    obtain ⟨w, hw, hid, hm⟩ := claim_fst_some st now lease i hc
    have := claimMatches_of_terminal now w (h w hw hid)
    rw [hm] at this
    simp at this
  · intro w' hw' hid
    rcases mem_claim_snd st now lease w' hw' with hmem | ⟨w, hw, hm, he⟩
    · exact h w' hmem hid
    · exfalso
      have hwid : w.id = i := by
        rw [← hid, he, claimUpdate_id]
      have := claimMatches_of_terminal now w (h w hw hwid)
      rw [hm] at this
      simp at this

theorem runClaims_terminalAt {V : Type} (st : Store V) (cs : List (Int × Int))
    (i : String) (h : TerminalAt st i) :
    ∀ r ∈ (runClaims st cs).1, r ≠ some i := by
  induction cs generalizing st with
  | nil => simp [runClaims]
  | cons c rest ih =>
    obtain ⟨now, lease⟩ := c
    intro r hr
    simp only [runClaims, List.mem_cons] at hr
    rcases hr with hr | hr
    · subst hr
      exact (claim_terminalAt st now lease i h).1
    · exact ih (claim st now lease).2 (claim_terminalAt st now lease i h).2 r hr

theorem setAsFinished_terminalAt {V : Type} (st : Store V) (i : String)
    (hnd : (st.map (fun w => w.id)).Nodup) :
    TerminalAt (setAsFinished st i) i := by
  induction st with
  | nil =>
    intro w hw
    simp [setAsFinished, updateFirst] at hw
  | cons w rest ih =>
    simp only [List.map_cons, List.nodup_cons] at hnd
    obtain ⟨hnotin, hndrest⟩ := hnd
    by_cases h0 : w.id = i
    · intro w' hw' hid
      simp only [setAsFinished] at hw'
      rw [updateFirst, if_pos h0] at hw'
      rcases List.mem_cons.mp hw' with hw' | hw'
      · subst hw'
        simp [setFinishedFn]
      · exfalso
        apply hnotin
        rw [h0, ← hid]
        exact List.mem_map_of_mem (fun w => w.id) hw'
    · intro w' hw' hid
      simp only [setAsFinished] at hw'
      rw [updateFirst, if_neg h0] at hw'
      rcases List.mem_cons.mp hw' with hw' | hw'
      · subst hw'
        exact absurd hid h0
      · exact ih hndrest w' hw' hid

theorem claimMatches_claimUpdate {V : Type} (now lease : Int) (w : Workflow V)
    (h : now < lease) : claimMatches now (claimUpdate lease w) = false := by
  simp only [claimMatches, claimUpdate, decide_eq_false_iff_not]
  omega

theorem runClaims_single_ineligible {V : Type} (w : Workflow V) (now lease : Int)
    (m : Nat) (h : claimMatches now w = false) :
    runClaims [w] (List.replicate m (now, lease)) = (List.replicate m none, [w]) := by
  induction m with
  | zero => simp [runClaims]
  | succ k ih =>
    have hc : claim [w] now lease = (none, [w]) := by
      simp [claim, h]
    simp [List.replicate_succ, runClaims, hc, ih]

/-! ### Demo values used by witnesses -/

/-- An idle instance as `insert` creates it. -/
def demoIdle : Workflow Nat :=
  { id := "wf-1", handler := "h", input := 0, status := .idle }

/-- A running instance whose lease expires at time 40. -/
def demoRunning : Workflow Nat :=
  { id := "wf-1", handler := "h", input := 0, status := .running,
    timeoutAt := some 40 }

/-! ### Claim theorems -/

/-- C1: the claim says `claim` selects a running instance only when its
stored `timeoutAt` is strictly before `now`, the comparison being against
`now` and not against the new lease expiry being written.  The
`MongoPersistence` class version (`src/src/index.ts`) takes a single
`timeoutAt` argument used both as the `$lt` bound and as the new lease, so
at `now = 38`, lease expiry `48`, it selects a running instance whose
stored `timeoutAt` is `40` — not before `now` — while the
`makeMongoPersistence` version (matching the repository's tests) does not
select it. -/
theorem claim_compares_new_lease_not_now :
    ¬ ((40 : Int) < 38)
    ∧ (MongoPersistenceClass.claim [demoRunning] 48).1 = some "wf-1"
    ∧ (claim [demoRunning] 38 48).1 = none
    ∧ (claim [demoRunning] 38 48).2 = [demoRunning] := by
  refine ⟨by decide, by decide, by decide, by decide⟩

/-- C2: with a single eligible instance in the store and `now < leaseUntil`,
a sequence of `n ≥ 1` atomic `claim` calls (each one `findOneAndUpdate`, so
any interleaving is a sequential order) returns the instance's id exactly
once, and `none` to every other caller. -/
theorem claim_mutual_exclusion {V : Type} (w : Workflow V) (now lease : Int)
    (n : Nat) (helig : claimMatches now w = true) (hlease : now < lease)
    (hn : 1 ≤ n) :
    (runClaims [w] (List.replicate n (now, lease))).1
      = some w.id :: List.replicate (n - 1) none
    ∧ ((runClaims [w] (List.replicate n (now, lease))).1).count (some w.id) = 1 := by
  obtain ⟨m, rfl⟩ : ∃ m, n = m + 1 := ⟨n - 1, by omega⟩
  have h1 : claim [w] now lease = (some w.id, [claimUpdate lease w]) := by
    simp [claim, helig]
  have h2 := runClaims_single_ineligible (claimUpdate lease w) now lease m
    (claimMatches_claimUpdate now lease w hlease)
  have hlist : (runClaims [w] (List.replicate (m + 1) (now, lease))).1
      = some w.id :: List.replicate m none := by
    simp [List.replicate_succ, runClaims, h1, h2]
  refine ⟨by simpa using hlist, ?_⟩
  rw [hlist]
  simp [List.count_cons, List.count_replicate]

/-- Witness for C2 at a concrete idle instance and two racing claims. -/
theorem claim_mutual_exclusion_witness :
    (runClaims [demoIdle] (List.replicate 2 (0, 10))).1
      = some "wf-1" :: List.replicate 1 none
    ∧ ((runClaims [demoIdle] (List.replicate 2 (0, 10))).1).count (some "wf-1") = 1 :=
  claim_mutual_exclusion demoIdle 0 10 2 (by decide) (by decide) (by decide)

/-- C3 counterexample: `insert` then `setAsFinished` moves the status from
`idle` directly to `finished`, which is not an edge of the §4.2 state
machine (the only edge into `finished` starts at `running`); the write
operations do not enforce the state machine. -/
theorem status_edge_counterexample :
    findStatus (insertS ([] : Store Nat) "wf-1" "h" 0) "wf-1" = some Status.idle
    ∧ findStatus (setAsFinished (insertS ([] : Store Nat) "wf-1" "h" 0) "wf-1")
        "wf-1" = some Status.finished
    ∧ specEdge Status.idle Status.finished = false := by
  refine ⟨by decide, by decide, by decide⟩

/-- C3 (amended): `claim` moves a document's status only along the edges
idle→running, running→running and failed→running, always writing
`timeoutAt := leaseUntil` together with the status; `updateStatus`
unconditionally overwrites status together with `timeoutAt`, `failures`
and `lastError`, whatever the current status; `setAsFinished`
unconditionally writes `finished` from any status, without writing
`timeoutAt`.  The state machine of §4.2 is not enforced against misuse of
the unconditional writes. -/
theorem status_transition_discipline {V : Type} (st : Store V)
    (now lease t f : Int) (i e : String) (s : Status) :
    (∀ w' ∈ (claim st now lease).2, w' ∈ st ∨ ∃ w, w ∈ st
        ∧ (w.status = .idle ∨ w.status = .running ∨ w.status = .failed)
        ∧ w' = claimUpdate lease w
        ∧ w'.status = .running ∧ w'.timeoutAt = some lease)
    ∧ (∀ w, findDoc st i = some w →
        findDoc (updateStatus st i s t f e) i
          = some { w with
              status := s, timeoutAt := some t,
              failures := some f, lastError := some e })
    ∧ (∀ w, findDoc st i = some w →
        findDoc (setAsFinished st i) i = some { w with status := Status.finished }) := by
  refine ⟨?_, ?_, ?_⟩
  · intro w' hw'
    rcases mem_claim_snd st now lease w' hw' with hmem | ⟨w, hw, hm, he⟩
    · exact Or.inl hmem
    · exact Or.inr ⟨w, hw, claimMatches_status now w hm, he,
        by rw [he]; rfl, by rw [he]; rfl⟩
  · intro w hw
    rw [updateStatus,
      findDoc_updateFirst_self st i (updateStatusFn s t f e) (fun w0 => rfl), hw]
    rfl
  · intro w hw
    rw [setAsFinished, findDoc_updateFirst_self st i setFinishedFn (fun w0 => rfl), hw]
    rfl

/-- Witness for C3's amended theorem: one claimed instance, one
`updateStatus` from `finished`, one `setAsFinished` from `idle`. -/
theorem status_transition_discipline_witness :
    (claimUpdate 10 demoIdle ∈ [demoIdle] ∨ ∃ w, w ∈ [demoIdle]
        ∧ (w.status = .idle ∨ w.status = .running ∨ w.status = .failed)
        ∧ claimUpdate 10 demoIdle = claimUpdate 10 w
        ∧ (claimUpdate 10 demoIdle).status = .running
        ∧ (claimUpdate 10 demoIdle).timeoutAt = some 10)
    ∧ findDoc (updateStatus [demoIdle] "wf-1" Status.failed 5 1 "kapot") "wf-1"
        = some { demoIdle with
            status := Status.failed, timeoutAt := some 5,
            failures := some 1, lastError := some "kapot" }
    ∧ findDoc (setAsFinished [demoIdle] "wf-1") "wf-1"
        = some { demoIdle with status := Status.finished } :=
  ⟨(status_transition_discipline [demoIdle] 0 10 5 1 "wf-1" "kapot" Status.failed).1
      (claimUpdate 10 demoIdle) (by decide),
   (status_transition_discipline [demoIdle] 0 10 5 1 "wf-1" "kapot" Status.failed).2.1
      demoIdle (by decide),
   (status_transition_discipline [demoIdle] 0 10 5 1 "wf-1" "kapot" Status.failed).2.2
      demoIdle (by decide)⟩

/-- C4: an `insert` whose id is already present returns the normal result
`false` (no error is thrown) and leaves the store — hence the existing
instance's `handler`, `input` and `status` — exactly as it was. -/
theorem insert_duplicate_returns_false {V : Type} (st : Store V) (i h2 : String)
    (v2 : V) (w : Workflow V) (hw : findDoc st i = some w) :
    insert st i h2 v2 = Except.ok (false, st) := by
  have hr : insertOneRes st i h2 v2
      = .error { name := "MongoServerError", code := 11000 } := by
    unfold insertOneRes
    rw [hw]
  show insertCore st (insertOneRes st i h2 v2) = Except.ok (false, st)
  rw [hr]
  rfl

/-- Witness for C4: re-inserting `"wf-1"` with a different handler and input. -/
theorem insert_duplicate_returns_false_witness :
    insert [demoIdle] "wf-1" "h2" 9 = Except.ok (false, [demoIdle]) :=
  insert_duplicate_returns_false [demoIdle] "wf-1" "h2" 9 demoIdle (by decide)

/-- C5: after `setAsFinished(id)` (in a store whose ids are unique, as the
unique index guarantees), no later sequence of `claim` calls — for any
`now` and any lease expiry — ever returns that id; likewise an instance
whose status is `aborted` is never selected by `claim`. -/
theorem terminal_never_claimed {V : Type} (st : Store V) (i : String)
    (cs : List (Int × Int)) :
    ((st.map (fun w => w.id)).Nodup →
      ∀ r ∈ (runClaims (setAsFinished st i) cs).1, r ≠ some i)
    ∧ ((∀ w ∈ st, w.id = i → w.status = .aborted) →
      ∀ r ∈ (runClaims st cs).1, r ≠ some i) := by
  constructor
  · intro hnd
    exact runClaims_terminalAt (setAsFinished st i) cs i
      (setAsFinished_terminalAt st i hnd)
  · intro hab
    exact runClaims_terminalAt st cs i (fun w hw hid => Or.inr (hab w hw hid))

/-- Witness for C5: a finished instance is not returned by a claim far in
the future. -/
theorem terminal_never_claimed_witness :
    some "wf-1" ∉ (runClaims (setAsFinished [demoRunning] "wf-1") [(999, 1099)]).1 :=
  fun hmem =>
    (terminal_never_claimed [demoRunning] "wf-1" [(999, 1099)]).1 (by decide)
      (some "wf-1") hmem rfl

/-- C6: for an existing instance, `updateOutput(id, s, V, T)` followed by
`findOutput(id, s)` returns `V`, and `findOutput(id, s)` is absent in any
store reachable from empty by operations none of which writes `steps.<s>`
of `id`; symmetrically for `updateWakeUpAt`/`findWakeUpAt` on `naps`. -/
theorem memoization_round_trip {V : Type} (i s nid : String) (v : V) (wa t : Int) :
    (∀ (st : Store V) (w : Workflow V), findDoc st i = some w →
        findOutput (updateOutput st i s v t) i s = some v)
    ∧ (∀ ops : List (Op V), (∀ op ∈ ops, touchesStep i s op = false) →
        findOutput (runOps [] ops) i s = none)
    ∧ (∀ (st : Store V) (w : Workflow V), findDoc st i = some w →
        findWakeUpAt (updateWakeUpAt st i nid wa t) i nid = some wa)
    ∧ (∀ ops : List (Op V), (∀ op ∈ ops, touchesNap i nid op = false) →
        findWakeUpAt (runOps [] ops) i nid = none) := by
  refine ⟨?_, ?_, ?_, ?_⟩
  · intro st w hw
    rw [findOutput, updateOutput,
      findDoc_updateFirst_self st i (updateOutputFn s v t) (fun w0 => rfl), hw]
    simp [updateOutputFn, getEntry_setEntry_self]
  · intro ops hops
    exact findOutput_runOps_none [] ops i s rfl hops
  · intro st w hw
    rw [findWakeUpAt, updateWakeUpAt,
      findDoc_updateFirst_self st i (updateWakeUpAtFn nid wa t) (fun w0 => rfl), hw]
    simp [updateWakeUpAtFn, getEntry_setEntry_self]
  · intro ops hops
    exact findWakeUpAt_runOps_none [] ops i nid rfl hops

/-- Witness for C6: write then read back step `"s1"` and nap `"n1"`, and
absence after an op sequence that never writes them. -/
theorem memoization_round_trip_witness :
    findOutput (updateOutput [demoIdle] "wf-1" "s1" 7 5) "wf-1" "s1" = some 7
    ∧ findOutput (runOps [] [Op.insert "wf-1" "h" 7, Op.claim 0 10,
        Op.updateOutput "wf-1" "s2" 8 20]) "wf-1" "s1" = none
    ∧ findWakeUpAt (updateWakeUpAt [demoIdle] "wf-1" "n1" 3 5) "wf-1" "n1" = some 3
    ∧ findWakeUpAt (runOps [] [Op.insert "wf-1" "h" 7, Op.claim 0 10,
        Op.updateWakeUpAt "wf-1" "n2" 4 20]) "wf-1" "n1" = none :=
  ⟨(memoization_round_trip "wf-1" "s1" "n1" 7 3 5).1 [demoIdle] demoIdle (by decide),
   (memoization_round_trip "wf-1" "s1" "n1" (7 : Nat) 3 5).2.1
      [Op.insert "wf-1" "h" 7, Op.claim 0 10, Op.updateOutput "wf-1" "s2" 8 20]
      (by decide),
   (memoization_round_trip "wf-1" "s1" "n1" (7 : Nat) 3 5).2.2.1 [demoIdle]
      demoIdle (by decide),
   (memoization_round_trip "wf-1" "s1" "n1" (7 : Nat) 3 5).2.2.2
      [Op.insert "wf-1" "h" 7, Op.claim 0 10, Op.updateWakeUpAt "wf-1" "n2" 4 20]
      (by decide)⟩

/-- C7: `updateOutput(id, stepId, V, T)` changes exactly the first document
carrying `id` — and on it exactly the `steps.<stepId>` entry and
`timeoutAt := T`, the record update leaving `status`, `handler`, `input`,
`failures`, `lastError`, `naps` and (third conjunct) every other `steps`
entry unchanged; `updateWakeUpAt` does the same on `naps` plus `timeoutAt`. -/
theorem update_output_frame {V : Type} (st : Store V) (i s nid : String) (v : V)
    (wa t : Int) :
    (∀ j, j ≠ i → findDoc (updateOutput st i s v t) j = findDoc st j)
    ∧ (∀ w, findDoc st i = some w →
        findDoc (updateOutput st i s v t) i
          = some { w with
              steps := setEntry w.steps s v, timeoutAt := some t })
    ∧ (∀ (l : List (String × V)) (s' : String), s' ≠ s →
        getEntry (setEntry l s v) s' = getEntry l s')
    ∧ (∀ (l : List (String × V)), getEntry (setEntry l s v) s = some v)
    ∧ (∀ j, j ≠ i → findDoc (updateWakeUpAt st i nid wa t) j = findDoc st j)
    ∧ (∀ w, findDoc st i = some w →
        findDoc (updateWakeUpAt st i nid wa t) i
          = some { w with
              naps := setEntry w.naps nid wa, timeoutAt := some t }) := by
  refine ⟨?_, ?_, ?_, ?_, ?_, ?_⟩
  · intro j hj
    exact findDoc_updateFirst_ne st i j (updateOutputFn s v t) (fun w0 => rfl) hj
  · intro w hw
    rw [updateOutput,
      findDoc_updateFirst_self st i (updateOutputFn s v t) (fun w0 => rfl), hw]
    rfl
  · intro l s' hs'
    exact getEntry_setEntry_ne l s s' v hs'
  · intro l
    exact getEntry_setEntry_self l s v
  · intro j hj
    exact findDoc_updateFirst_ne st i j (updateWakeUpAtFn nid wa t) (fun w0 => rfl) hj
  · intro w hw
    rw [updateWakeUpAt,
      findDoc_updateFirst_self st i (updateWakeUpAtFn nid wa t) (fun w0 => rfl), hw]
    rfl

/-- Witness for C7 on a two-document store. -/
theorem update_output_frame_witness :
    findDoc (updateOutput [demoIdle,
        { demoIdle with id := "wf-2" }] "wf-1" "s1" 7 5) "wf-2"
      = findDoc [demoIdle, { demoIdle with id := "wf-2" }] "wf-2"
    ∧ findDoc (updateOutput [demoIdle, { demoIdle with id := "wf-2" }]
        "wf-1" "s1" 7 5) "wf-1"
      = some { demoIdle with
          steps := setEntry demoIdle.steps "s1" 7,
          timeoutAt := some 5 }
    ∧ getEntry (setEntry [("s2", 9)] "s1" 7) "s2" = getEntry [("s2", (9 : Nat))] "s2"
    ∧ getEntry (setEntry [("s2", 9)] "s1" 7) "s1" = some 7
    ∧ findDoc (updateWakeUpAt [demoIdle, { demoIdle with id := "wf-2" }]
        "wf-1" "n1" 3 5) "wf-2"
      = findDoc [demoIdle, { demoIdle with id := "wf-2" }] "wf-2"
    ∧ findDoc (updateWakeUpAt [demoIdle, { demoIdle with id := "wf-2" }]
        "wf-1" "n1" 3 5) "wf-1"
      = some { demoIdle with
          naps := setEntry demoIdle.naps "n1" 3,
          timeoutAt := some 5 } :=
  ⟨(update_output_frame [demoIdle, { demoIdle with id := "wf-2" }]
      "wf-1" "s1" "n1" 7 3 5).1 "wf-2" (by decide),
   (update_output_frame [demoIdle, { demoIdle with id := "wf-2" }]
      "wf-1" "s1" "n1" 7 3 5).2.1 demoIdle (by decide),
   (update_output_frame [demoIdle, { demoIdle with id := "wf-2" }]
      "wf-1" "s1" "n1" 7 3 5).2.2.1 [("s2", 9)] "s2" (by decide),
   (update_output_frame [demoIdle, { demoIdle with id := "wf-2" }]
      "wf-1" "s1" "n1" 7 3 5).2.2.2.1 [("s2", 9)],
   (update_output_frame [demoIdle, { demoIdle with id := "wf-2" }]
      "wf-1" "s1" "n1" 7 3 5).2.2.2.2.1 "wf-2" (by decide),
   (update_output_frame [demoIdle, { demoIdle with id := "wf-2" }]
      "wf-1" "s1" "n1" 7 3 5).2.2.2.2.2 demoIdle (by decide)⟩

/-- C8: `insert` returns `true` on successful creation, returns `false`
exactly when the store reports the unique-key violation
(`MongoServerError` with code 11000, which the duplicate id produces),
and re-raises any other error from the store unchanged — no retry, no
absorption. -/
theorem insert_error_propagation {V : Type} (st : Store V) (i h : String)
    (v : V) (e : MongoErr) :
    (findDoc st i = none →
      insert st i h v = Except.ok (true, st ++ [newWorkflow i h v]))
    ∧ (∀ w, findDoc st i = some w → insert st i h v = Except.ok (false, st))
    ∧ (e.name = "MongoServerError" → e.code = 11000 →
        insertCore st (Except.error e) = Except.ok (false, st))
    ∧ (¬ (e.name = "MongoServerError" ∧ e.code = 11000) →
        insertCore st (Except.error e) = Except.error e) := by
  refine ⟨?_, ?_, ?_, ?_⟩
  · intro hn
    have hr : insertOneRes st i h v = .ok (st ++ [newWorkflow i h v]) := by
      unfold insertOneRes
      rw [hn]
    show insertCore st (insertOneRes st i h v) = Except.ok (true, st ++ [newWorkflow i h v])
    rw [hr]
    rfl
  · intro w hw
    have hr : insertOneRes st i h v
        = .error { name := "MongoServerError", code := 11000 } := by
      unfold insertOneRes
      rw [hw]
    show insertCore st (insertOneRes st i h v) = Except.ok (false, st)
    rw [hr]
    rfl
  · intro h1 h2
    obtain ⟨n, c⟩ := e
    simp only at h1 h2
    subst h1
    subst h2
    rfl
  · intro hne
    show (if e.name = "MongoServerError" ∧ e.code = 11000
      then Except.ok (false, st) else Except.error e) = Except.error e
    rw [if_neg hne]

/-- Witness for C8: fresh insert, duplicate insert, the absorbed 11000
error, and a re-raised network-style error. -/
theorem insert_error_propagation_witness :
    insert ([] : Store Nat) "wf-1" "h" 0
      = Except.ok (true, [] ++ [newWorkflow "wf-1" "h" 0])
    ∧ insert [demoIdle] "wf-1" "h" 0 = Except.ok (false, [demoIdle])
    ∧ insertCore ([] : Store Nat)
        (Except.error { name := "MongoServerError", code := 11000 })
      = Except.ok (false, [])
    ∧ insertCore ([] : Store Nat) (Except.error { name := "MongoNetworkError", code := 7 })
      = Except.error { name := "MongoNetworkError", code := 7 } :=
  ⟨(insert_error_propagation ([] : Store Nat) "wf-1" "h" 0
      { name := "MongoServerError", code := 11000 }).1 rfl,
   (insert_error_propagation [demoIdle] "wf-1" "h" 0
      { name := "MongoServerError", code := 11000 }).2.1 demoIdle (by decide),
   (insert_error_propagation ([] : Store Nat) "wf-1" "h" 0
      { name := "MongoServerError", code := 11000 }).2.2.1 rfl rfl,
   (insert_error_propagation ([] : Store Nat) "wf-1" "h" 0
      { name := "MongoNetworkError", code := 7 }).2.2.2 (by decide)⟩

/-- C9: in every store reachable from the empty store by any sequence of
the write operations, every instance whose status is `running` or
`failed` carries a `timeoutAt`: `claim` writes `timeoutAt` whenever it
sets `status = "running"`, and `updateStatus` always writes `timeoutAt`
alongside the status. -/
theorem running_failed_have_timeout {V : Type} (ops : List (Op V)) :
    ∀ w ∈ runOps ([] : Store V) ops,
      (w.status = .running ∨ w.status = .failed) → w.timeoutAt ≠ none := by
  have h0 : StoreInv ([] : Store V) := by
    intro w hw
    simp at hw
  exact storeInv_runOps [] ops h0

/-- Witness for C9: after insert, claim, and a failure recorded by
`updateStatus`, the failed instance has a lease expiry. -/
theorem running_failed_have_timeout_witness :
    ({ id := "wf-1", handler := "h", input := 0, status := Status.failed,
       timeoutAt := some 20, failures := some 1,
       lastError := some "kapot" } : Workflow Nat).timeoutAt ≠ none :=
  running_failed_have_timeout
    [Op.insert "wf-1" "h" 0, Op.claim 0 10,
     Op.updateStatus "wf-1" Status.failed 20 1 "kapot"]
    { id := "wf-1", handler := "h", input := 0, status := Status.failed,
      timeoutAt := some 20, failures := some 1, lastError := some "kapot" }
    (by decide) (Or.inr rfl)

/-- C10: for an id present nowhere in the store, `setAsFinished`,
`updateStatus`, `updateOutput` and `updateWakeUpAt` are silent no-ops:
the store is returned unchanged, no instance is created, and no error is
reported (each is a total function into stores). -/
theorem missing_id_silent_noop {V : Type} (st : Store V) (i sid nid e : String)
    (s : Status) (t f wake : Int) (v : V) (h : ∀ w ∈ st, w.id ≠ i) :
    setAsFinished st i = st ∧ updateStatus st i s t f e = st
    ∧ updateOutput st i sid v t = st ∧ updateWakeUpAt st i nid wake t = st := by
  have hn : findDoc st i = none := (findDoc_eq_none_iff st i).mpr h
  exact ⟨updateFirst_eq_of_findDoc_none st i setFinishedFn hn,
    updateFirst_eq_of_findDoc_none st i (updateStatusFn s t f e) hn,
    updateFirst_eq_of_findDoc_none st i (updateOutputFn sid v t) hn,
    updateFirst_eq_of_findDoc_none st i (updateWakeUpAtFn nid wake t) hn⟩

/-- Witness for C10 at a store that does not contain id `"zzz"`. -/
theorem missing_id_silent_noop_witness :
    setAsFinished [demoIdle] "zzz" = [demoIdle]
    ∧ updateStatus [demoIdle] "zzz" Status.failed 5 1 "kapot" = [demoIdle]
    ∧ updateOutput [demoIdle] "zzz" "s1" 7 5 = [demoIdle]
    ∧ updateWakeUpAt [demoIdle] "zzz" "n1" 3 5 = [demoIdle] :=
  missing_id_silent_noop [demoIdle] "zzz" "s1" "n1" "kapot" Status.failed 5 1 3 7
    (by decide)
